import Mathlib

/-!
Verification of the GeoJSON/CSV/JSON split-and-zip pipeline
(src/geojson_split_zip.py) against its natural-language specification.

The script is embedded shallowly:

* Python attribute values (the contents of DataFrame cells) are the
  inductive type `PVal`: strings, ints, booleans, null (NaN/NaT/None),
  pandas timestamps, dicts and lists.  A timestamp is modelled by its
  date part and time part (naive, whole seconds), which is all the
  source's two renderings (`isoformat()` and `str()`) depend on.
* A DataFrame row is an ordered association list from column name to
  `PVal`; a frame is a list of rows plus the list of columns whose
  dtype is `datetime64[ns]` (the dtype metadata the export loop reads
  via `select_dtypes`).
* Fallible steps (`iloc[0]` on an empty partition, a missing geometry
  column) return `Except`.
* The in-place mutation performed by `convert_timestamps_in_properties`
  is modelled separately with an explicit object store (see the heap
  section below); everywhere else the pure value semantics is used.
-/

/-- Python attribute value held in a DataFrame cell.  `null` stands for
NaN/NaT; `timestamp d t` is a naive pandas Timestamp with date part `d`
(YYYY-MM-DD) and time part `t` (HH:MM:SS). -/
inductive PVal where
  | str (s : String)
  | intV (n : Int)
  | boolV (b : Bool)
  | null
  | timestamp (d t : String)
  | dict (kvs : List (String × PVal))
  | listV (items : List PVal)

/- Structural (Python `==` without NaN special-casing) equality test,
written by hand because `deriving DecidableEq` does not handle the
nested inductive. -/
mutual
def pvBeq : PVal → PVal → Bool
  | .str a, .str b => a == b
  | .intV a, .intV b => a == b
  | .boolV a, .boolV b => a == b
  | .null, .null => true
  | .timestamp d t, .timestamp e u => d == e && t == u
  | .dict a, .dict b => pvBeqKVs a b
  | .listV a, .listV b => pvBeqItems a b
  | _, _ => false
def pvBeqKVs : List (String × PVal) → List (String × PVal) → Bool
  | [], [] => true
  | (k, v) :: r, (k2, v2) :: r2 => k == k2 && pvBeq v v2 && pvBeqKVs r r2
  | _, _ => false
def pvBeqItems : List PVal → List PVal → Bool
  | [], [] => true
  | a :: r, b :: r2 => pvBeq a b && pvBeqItems r r2
  | _, _ => false
end

mutual
theorem pvBeq_iff : ∀ a b, pvBeq a b = true ↔ a = b
  | .str a, .str b => by simp [pvBeq]
  | .intV a, .intV b => by simp [pvBeq]
  | .boolV a, .boolV b => by simp [pvBeq]
  | .null, .null => by simp [pvBeq]
  | .timestamp d t, .timestamp e u => by simp [pvBeq]
  | .dict a, .dict b => by simp [pvBeq, pvBeqKVs_iff a b]
  | .listV a, .listV b => by simp [pvBeq, pvBeqItems_iff a b]
  | .str _, .intV _ => by simp [pvBeq]
  | .str _, .boolV _ => by simp [pvBeq]
  | .str _, .null => by simp [pvBeq]
  | .str _, .timestamp _ _ => by simp [pvBeq]
  | .str _, .dict _ => by simp [pvBeq]
  | .str _, .listV _ => by simp [pvBeq]
  | .intV _, .str _ => by simp [pvBeq]
  | .intV _, .boolV _ => by simp [pvBeq]
  | .intV _, .null => by simp [pvBeq]
  | .intV _, .timestamp _ _ => by simp [pvBeq]
  | .intV _, .dict _ => by simp [pvBeq]
  | .intV _, .listV _ => by simp [pvBeq]
  | .boolV _, .str _ => by simp [pvBeq]
  | .boolV _, .intV _ => by simp [pvBeq]
  | .boolV _, .null => by simp [pvBeq]
  | .boolV _, .timestamp _ _ => by simp [pvBeq]
  | .boolV _, .dict _ => by simp [pvBeq]
  | .boolV _, .listV _ => by simp [pvBeq]
  | .null, .str _ => by simp [pvBeq]
  | .null, .intV _ => by simp [pvBeq]
  | .null, .boolV _ => by simp [pvBeq]
  | .null, .timestamp _ _ => by simp [pvBeq]
  | .null, .dict _ => by simp [pvBeq]
  | .null, .listV _ => by simp [pvBeq]
  | .timestamp _ _, .str _ => by simp [pvBeq]
  | .timestamp _ _, .intV _ => by simp [pvBeq]
  | .timestamp _ _, .boolV _ => by simp [pvBeq]
  | .timestamp _ _, .null => by simp [pvBeq]
  | .timestamp _ _, .dict _ => by simp [pvBeq]
  | .timestamp _ _, .listV _ => by simp [pvBeq]
  | .dict _, .str _ => by simp [pvBeq]
  | .dict _, .intV _ => by simp [pvBeq]
  | .dict _, .boolV _ => by simp [pvBeq]
  | .dict _, .null => by simp [pvBeq]
  | .dict _, .timestamp _ _ => by simp [pvBeq]
  | .dict _, .listV _ => by simp [pvBeq]
  | .listV _, .str _ => by simp [pvBeq]
  | .listV _, .intV _ => by simp [pvBeq]
  | .listV _, .boolV _ => by simp [pvBeq]
  | .listV _, .null => by simp [pvBeq]
  | .listV _, .timestamp _ _ => by simp [pvBeq]
  | .listV _, .dict _ => by simp [pvBeq]
theorem pvBeqKVs_iff : ∀ a b, pvBeqKVs a b = true ↔ a = b
  | [], [] => by simp [pvBeqKVs]
  | (k, v) :: r, (k2, v2) :: r2 => by
      simp [pvBeqKVs, pvBeq_iff v v2, pvBeqKVs_iff r r2, and_assoc]
  | [], _ :: _ => by simp [pvBeqKVs]
  | _ :: _, [] => by simp [pvBeqKVs]
theorem pvBeqItems_iff : ∀ a b, pvBeqItems a b = true ↔ a = b
  | [], [] => by simp [pvBeqItems]
  | a :: r, b :: r2 => by simp [pvBeqItems, pvBeq_iff a b, pvBeqItems_iff r r2]
  | [], _ :: _ => by simp [pvBeqItems]
  | _ :: _, [] => by simp [pvBeqItems]
end

instance : DecidableEq PVal := fun a b =>
  decidable_of_iff (pvBeq a b = true) (pvBeq_iff a b)

instance {ε α : Type} [DecidableEq ε] [DecidableEq α] : DecidableEq (Except ε α) := fun a b =>
  match a, b with
  | .ok x, .ok y => decidable_of_iff (x = y) (by simp)
  | .error x, .error y => decidable_of_iff (x = y) (by simp)
  | .ok _, .error _ => isFalse (by simp)
  | .error _, .ok _ => isFalse (by simp)

/-- Python `isinstance(v, dict)`. -/
def isDict : PVal → Bool
  | .dict _ => true
  | _ => false

/-- Python `isinstance(v, (pd.Timestamp, datetime))`. -/
def isTimestampVal : PVal → Bool
  | .timestamp _ _ => true
  | _ => false

/-- Test for the string constructor. -/
def isStr : PVal → Bool
  | .str _ => true
  | _ => false

/-- Test for null (NaN/NaT), the values `dropna` removes and `==` never
matches. -/
def isNull : PVal → Bool
  | .null => true
  | _ => false

/-- Rendering of `value.isoformat()` (source line 20) for a naive
whole-second timestamp: date and time joined by a literal T. -/
def tsIsoformat (d t : String) : String := d ++ "T" ++ t

/- Source lines 15-25, `convert_timestamps_in_properties`, as a pure
function on the value tree (its in-place effect on the Python heap is
modelled separately below).  Only a dict argument is transformed; for
each key: a timestamp value becomes its isoformat string, a dict value
is converted recursively, a list value has exactly its dict elements
converted, and every other value (including a timestamp that sits
directly inside a list) is left as it is. -/
mutual
def convert_timestamps_in_properties : PVal → PVal
  | .dict kvs => .dict (convertKVs kvs)
  | v => v
def convertKVs : List (String × PVal) → List (String × PVal)
  | [] => []
  | (k, v) :: rest => (k, convertEntry v) :: convertKVs rest
def convertEntry : PVal → PVal
  | .timestamp d t => .str (tsIsoformat d t)
  | .dict kvs => .dict (convertKVs kvs)
  | .listV items => .listV (convertItems items)
  | v => v
def convertItems : List PVal → List PVal
  | [] => []
  | i :: rest =>
      (match i with
       | .dict kvs => .dict (convertKVs kvs)
       | _ => i) :: convertItems rest
end

/- Python `str()` and `repr()` of attribute values, used by the
filename f-string (source line 162/167) through `str(v)`.  Containers
render through `repr`; they cannot actually reach the filename code
(unhashable values make `unique()`/`sorted()` raise first) but the
function is total. -/
mutual
def pyRepr : PVal → String
  | .str s => "\x27" ++ s ++ "\x27"
  | .intV n => toString n
  | .boolV b => if b then "True" else "False"
  | .null => "nan"
  | .timestamp d t => "Timestamp(\x27" ++ d ++ " " ++ t ++ "\x27)"
  | .dict kvs => "\x7b" ++ pyReprKVs kvs ++ "\x7d"
  | .listV items => "[" ++ pyReprItems items ++ "]"
def pyReprKVs : List (String × PVal) → String
  | [] => ""
  | [(k, v)] => "\x27" ++ k ++ "\x27: " ++ pyRepr v
  | (k, v) :: rest => "\x27" ++ k ++ "\x27: " ++ pyRepr v ++ ", " ++ pyReprKVs rest
def pyReprItems : List PVal → String
  | [] => ""
  | [i] => pyRepr i
  | i :: rest => pyRepr i ++ ", " ++ pyReprItems rest
end

/-- Python `str(v)`: identity on strings, space-separated rendering for
a pandas Timestamp (this is what `astype(str)` produces for a
`datetime64[ns]` column - not `isoformat`), `repr` otherwise. -/
def pyStr : PVal → String
  | .str s => s
  | .timestamp d t => d ++ " " ++ t
  | v => pyRepr v

/-- A DataFrame row: ordered association of column name to cell value. -/
abbrev Row := List (String × PVal)

/-- Column access `row[col]`: the first entry carrying the name (pandas
column labels are unique here; the app never accesses a missing
column, so the missing case defaults to null). -/
def rowGet (r : Row) (c : String) : PVal :=
  match r.find? (fun p => p.1 == c) with
  | some p => p.2
  | none => .null

/-- Elementwise pandas `==` (source line 144): NaN/NaT compares unequal
to everything, itself included; otherwise Python equality.  (Python's
`True == 1` cross-type numeric equality and the identity shortcut
inside container comparison are not modelled; no modelled code path
compares values of different dtypes or unhashable containers.) -/
def pdEq (a b : PVal) : Bool :=
  if isNull a || isNull b then false else decide (a = b)

/-- Membership test of `Series.isin(vals)` (source line 123) for one
cell: structural equality against the selected values, under which NaN
does match a NaN in the list - but the selected lists below never
contain NaN, coming from `dropna()`. -/
def pdIsin (v : PVal) (vals : List PVal) : Bool :=
  vals.contains v

/-- Body of `uniqueList`, carrying the values already emitted (the
hash table pandas deduplicates with). -/
def uniqueAux (seen : List PVal) : List PVal → List PVal
  | [] => []
  | a :: as => if a ∈ seen then uniqueAux seen as else a :: uniqueAux (a :: seen) as

/-- First-seen-order deduplication, the order `Series.unique()` returns
distinct values in.  NaN is deduplicated like any value (pandas hashes
it to a single entry). -/
def uniqueList (l : List PVal) : List PVal :=
  uniqueAux [] l

/-- Constructor rank used to totalise the comparison Python `sorted`
performs (Python raises `TypeError` on cross-type comparison; the
filter widget only ever sorts one column's values, which share one
type, so the cross-type branch is never exercised). -/
def pvRank : PVal → Nat
  | .null => 0
  | .boolV _ => 1
  | .intV _ => 2
  | .str _ => 3
  | .timestamp _ _ => 4
  | .listV _ => 5
  | .dict _ => 6

/-- Within-type Python `<=`: booleans, integers, strings and
timestamps compare in their natural orders; containers (which Python
cannot sort) are totalised to `true`. -/
def pvSameRankLe (a b : PVal) : Bool :=
  match a, b with
  | .boolV x, .boolV y => decide (x ≤ y)
  | .intV m, .intV n => decide (m ≤ n)
  | .str s, .str t => decide (s ≤ t)
  | .timestamp d t, .timestamp e u => decide (d < e) || (decide (d = e) && decide (t ≤ u))
  | _, _ => true

/-- Total comparison backing the `sorted(...)` call: rank first, then
the within-type order. -/
def pvLe (a b : PVal) : Bool :=
  decide (pvRank a < pvRank b) || (decide (pvRank a = pvRank b) && pvSameRankLe a b)

/-- Propositional form of `pvLe`, the order `sorted` arranges by. -/
abbrev pvLeProp (a b : PVal) : Prop := pvLe a b = true

/-- Source lines 86 and 104: `sorted(gdf[col].dropna().unique().tolist())`,
the values the filter widget offers for a column.  `sorted` is a
stable comparison sort; after `unique()` removed duplicates its result
is the `pvLeProp`-sorted arrangement, modelled with insertion sort. -/
def candidateValues (rows : List Row) (col : String) : List PVal :=
  List.insertionSort pvLeProp
    (uniqueList ((rows.map (fun r => rowGet r col)).filter (fun v => !(isNull v))))

/-- Source lines 120-123: start from a copy of the frame and, for each
selected column in specification order, keep the rows whose value is
in the selected list, skipping empty selections. -/
def applyFilters (selected : List (String × List PVal)) (rows : List Row) : List Row :=
  match selected with
  | [] => rows
  | (c, vs) :: rest =>
      applyFilters rest (if vs.isEmpty then rows else rows.filter (fun r => pdIsin (rowGet r c) vs))

/-- Errors the export loop can raise.  `iloc0OnEmptyPartition` is the
`IndexError` from `subset_copy[col].iloc[0]` (source line 153) when a
partition has no rows - which happens exactly for the NaN group, since
`== NaN` selects nothing. -/
inductive ExportErr where
  | iloc0OnEmptyPartition
  deriving DecidableEq, Repr

/-- Source lines 148-149: `astype(str)` applied to the cells of every
`datetime64[ns]` column of the partition. -/
def astypeRow (dtcols : List String) (r : Row) : Row :=
  r.map (fun p => if p.1 ∈ dtcols then (p.1, PVal.str (pyStr p.2)) else p)

/-- Source lines 151-156, value-level effect: a column is rewritten
with `convert_timestamps_in_properties` exactly when its value in the
partition's first row (after `astype`) is a dict. -/
def convertRow (first : Row) (r : Row) : Row :=
  r.map (fun p =>
    if isDict (rowGet first p.1) then (p.1, convert_timestamps_in_properties p.2) else p)

/-- Source lines 146-156: the per-partition normalization the export
loop performs on `subset.copy()` - stringify datetime columns, then
rewrite the columns whose first value is a dict.  On an empty
partition the first-row probe `iloc[0]` raises (a frame always has
columns here: the split column and the geometry at least). -/
def normalizeSubset (dtcols : List String) (rows : List Row) : Except ExportErr (List Row) :=
  let rows1 := rows.map (astypeRow dtcols)
  match rows1 with
  | [] => .error .iloc0OnEmptyPartition
  | first :: rest => .ok ((first :: rest).map (convertRow first))

/-- A frame together with its `datetime64[ns]` dtype metadata (what
`select_dtypes` reads). -/
structure GFrame where
  datetimeCols : List String
  rows : List Row
  deriving DecidableEq

/-- Whole-table view of the export normalization: the rows are
normalized as one partition; afterwards no column has dtype
`datetime64[ns]` any more (astype(str) turned them into object
columns of strings). -/
def normalizeTable (T : GFrame) : Except ExportErr GFrame :=
  match normalizeSubset T.datetimeCols T.rows with
  | .error e => .error e
  | .ok rows2 => .ok ⟨[], rows2⟩

/-- ASCII double quote, written by code point to keep the source free
of quote-character literals. -/
def quoteChar : Char := Char.ofNat 34

/-- ASCII single quote / apostrophe, written by code point. -/
def apostropheChar : Char := Char.ofNat 39

/-- ASCII space, written by code point. -/
def spaceChar : Char := Char.ofNat 32

/-- Python `str.replace(old, new)` for a single-character pattern:
each occurrence of `old` becomes the segment `new`. -/
def pyReplace1 (old : Char) (new : List Char) : List Char → List Char
  | [] => []
  | c :: cs => (if c == old then new else [c]) ++ pyReplace1 old new cs

/-- Source lines 171-176: the filename cleaning chain, applied in the
source's order - slash, backslash and space to underscore, then both
quote characters removed. -/
def cleanFilename (s : String) : String :=
  (pyReplace1 apostropheChar []
    (pyReplace1 quoteChar []
      (pyReplace1 spaceChar [Char.ofNat 95]
        (pyReplace1 (Char.ofNat 92) [Char.ofNat 95]
          (pyReplace1 (Char.ofNat 47) [Char.ofNat 95] s.toList))))).asString

/-- Source lines 158-176: derive the archive member name for one split
value - `"<splitCol>-<value>"`, the `__filters__` suffix listing every
non-empty selection, the `.geojson` extension, then the cleaning
chain. -/
def deriveFilename (splitCol : String) (v : PVal) (selected : List (String × List PVal)) : String :=
  let filterInfo := (selected.filter (fun p => !p.2.isEmpty)).map
      (fun p => p.1 ++ "-" ++ String.intercalate "_" (p.2.map pyStr))
  let base :=
    if filterInfo.isEmpty then
      splitCol ++ "-" ++ pyStr v ++ ".geojson"
    else
      splitCol ++ "-" ++ pyStr v ++ "__filters__" ++ String.intercalate "-" filterInfo ++ ".geojson"
  cleanFilename base

/-- Source lines 143-144: the grouping the export loop performs -
one group per `unique()` value of the split column, each group the
rows selected by pandas `==` against that value. -/
def partitionTable (rows : List Row) (splitCol : String) : List (PVal × List Row) :=
  (uniqueList (rows.map (fun r => rowGet r splitCol))).map
    (fun v => (v, rows.filter (fun r => pdEq (rowGet r splitCol) v)))

/-- Export loop body over the distinct split values (source lines
143-182): subset, normalize (propagating the empty-partition error),
derive the filename, and collect the archive entries in group order.
The GeoJSON serialization itself (`to_json`, line 179) is outside this
model: an entry carries the normalized partition it would serialize. -/
def exportGroupsAux (dtcols : List String) (rows : List Row) (splitCol : String)
    (selected : List (String × List PVal)) :
    List PVal → Except ExportErr (List (String × List Row))
  | [] => .ok []
  | v :: vs =>
      let subset := rows.filter (fun r => pdEq (rowGet r splitCol) v)
      match normalizeSubset dtcols subset with
      | .error e => .error e
      | .ok ns =>
          match exportGroupsAux dtcols rows splitCol selected vs with
          | .error e => .error e
          | .ok rest => .ok ((deriveFilename splitCol v selected, ns) :: rest)

/-- Source lines 139-182: the whole export of a filtered frame - one
archive entry per distinct split-column value, in first-seen order. -/
def exportZip (dtcols : List String) (rows : List Row) (splitCol : String)
    (selected : List (String × List PVal)) : Except ExportErr (List (String × List Row)) :=
  exportGroupsAux dtcols rows splitCol selected
    (uniqueList (rows.map (fun r => rowGet r splitCol)))

/-- Errors of the loading stage.  `noGeometryColumn` is the spec's
name for the failure when no column name contains "geom": the JSON
path reports it via `st.error`/`st.stop` (lines 49-50), the CSV path
via the `IndexError` of `[...][0]` on an empty list (line 53); both
abort with no table produced. -/
inductive LoadError where
  | noGeometryColumn
  deriving DecidableEq, Repr

/-- A loaded table: its columns, the column chosen as geometry source,
and its rows. -/
structure LoadedTable where
  cols : List String
  geomSource : String
  rows : List Row
  deriving DecidableEq

/-- Python `'geom' in col.lower()` (source lines 45 and 53). -/
def containsGeom (c : String) : Bool :=
  decide (List.IsInfix "geom".toList (c.toList.map Char.toLower))

/-- Source lines 40-50: loading a JSON list of objects - pick the
geometry source from the columns whose name contains "geom",
stopping with an error when there is none. -/
def loadJsonListTable (cols : List String) (rows : List Row) : Except LoadError LoadedTable :=
  match cols.filter containsGeom with
  | [] => .error .noGeometryColumn
  | g :: _ => .ok ⟨cols, g, rows⟩

/-- Source lines 51-54: loading a CSV - same candidate search; the
bare `[0]` raises on an empty candidate list, surfaced by the
top-level handler (no table is produced either way). -/
def loadCsvTable (cols : List String) (rows : List Row) : Except LoadError LoadedTable :=
  match cols.filter containsGeom with
  | [] => .error .noGeometryColumn
  | g :: _ => .ok ⟨cols, g, rows⟩

/- Heap model for the in-place behaviour of
`convert_timestamps_in_properties` (it assigns into its argument's
keys) combined with the shallowness of `DataFrame.copy()`: an
object-dtype cell holds a reference into a store of Python objects,
and `copy()` duplicates the frame but not the referenced objects. -/

/-- Store of Python objects referenced by object-dtype cells. -/
abbrev Store := List PVal

/-- A row whose object-dtype cells hold references (store indices). -/
abbrev RefRow := List (String × Nat)

/-- Reference held by the cell of the given column. -/
def refGet (r : RefRow) (c : String) : Nat :=
  match r.find? (fun p => p.1 == c) with
  | some p => p.2
  | none => 0

/-- Read a cell's current value through the store. -/
def readCell (store : Store) (addr : Nat) : PVal :=
  store.getD addr .null

/-- The call `convert_timestamps_in_properties(x)` on the object at
`addr`: the object is rewritten in place, so the store changes at that
address and the returned reference is the argument itself. -/
def applyConvertAt (store : Store) (addr : Nat) : Store :=
  store.set addr (convert_timestamps_in_properties (readCell store addr))

/-- Source lines 154-156: `subset_copy[col].apply(convert...)` - the
conversion runs on every cell's object; assigning the resulting
series back leaves the references unchanged. -/
def rewriteColumn (store : Store) (rows : List RefRow) (c : String) : Store :=
  rows.foldl (fun st r => applyConvertAt st (refGet r c)) store

/-- Source lines 151-156 at heap level: walk the columns; whenever the
first row's object in a column is currently a dict, convert every
object of that column in place. -/
def exportNestedRewrite (store : Store) (rows : List RefRow) : Store :=
  match rows with
  | [] => store
  | first :: _ =>
      (first.map Prod.fst).foldl
        (fun st c => if isDict (readCell st (refGet first c)) then rewriteColumn st rows c else st)
        store

/-- Source line 147, `subset.copy()`: a fresh frame whose object-dtype
cells carry the same references as the original's. -/
def copyFrame (rows : List RefRow) : List RefRow :=
  rows

/- Lemmas about first-seen deduplication. -/

theorem mem_uniqueAux : ∀ (l seen : List PVal) (x : PVal),
    x ∈ uniqueAux seen l ↔ x ∈ l ∧ x ∉ seen := by
  intro l
  induction l with
  | nil => intro seen x; simp [uniqueAux]
  | cons a as ih =>
      intro seen x
      by_cases h : a ∈ seen
      · rw [uniqueAux, if_pos h, ih]
        simp only [List.mem_cons]
        constructor
        · rintro ⟨hx, hs⟩
          exact ⟨Or.inr hx, hs⟩
        · rintro ⟨hx | hx, hs⟩
          · exact absurd (hx ▸ h) hs
          · exact ⟨hx, hs⟩
      · rw [uniqueAux, if_neg h]
        simp only [List.mem_cons, ih]
        constructor
        · rintro (rfl | ⟨hx, hs⟩)
          · exact ⟨Or.inl rfl, h⟩
          · exact ⟨Or.inr hx, fun hseen => hs (Or.inr hseen)⟩
        · rintro ⟨rfl | hx, hs⟩
          · exact Or.inl rfl
          · by_cases hxa : x = a
            · exact Or.inl hxa
            · exact Or.inr ⟨hx, by simp [hxa, hs]⟩

theorem nodup_uniqueAux : ∀ (l seen : List PVal), (uniqueAux seen l).Nodup := by
  intro l
  induction l with
  | nil => intro seen; simp [uniqueAux]
  | cons a as ih =>
      intro seen
      by_cases h : a ∈ seen
      · rw [uniqueAux, if_pos h]
        exact ih seen
      · rw [uniqueAux, if_neg h]
        refine List.nodup_cons.mpr ⟨?_, ih (a :: seen)⟩
        intro hmem
        exact ((mem_uniqueAux as (a :: seen) a).mp hmem).2 (List.mem_cons_self a seen)

theorem mem_uniqueList (l : List PVal) (x : PVal) : x ∈ uniqueList l ↔ x ∈ l := by
  simp [uniqueList, mem_uniqueAux]

theorem nodup_uniqueList (l : List PVal) : (uniqueList l).Nodup :=
  nodup_uniqueAux l []

/- Positions the nested rewrite guarantees to clear: `noReachableTs v`
says that if `v` is a dict, no timestamp occurs as a mapping value at
any depth reachable through dicts - including dicts that are elements
of lists.  A timestamp that is a direct (non-dict) element of a list is
NOT at such a position: the rewrite leaves it alone. -/
mutual
def noReachableTs : PVal → Bool
  | .dict kvs => noReachableTsKVs kvs
  | _ => true
def noReachableTsKVs : List (String × PVal) → Bool
  | [] => true
  | (_, v) :: rest => noReachableTsVal v && noReachableTsKVs rest
def noReachableTsVal : PVal → Bool
  | .timestamp _ _ => false
  | .dict kvs => noReachableTsKVs kvs
  | .listV items => noReachableTsItems items
  | _ => true
def noReachableTsItems : List PVal → Bool
  | [] => true
  | i :: rest => noReachableTs i && noReachableTsItems rest
end

/- Timestamp occurrence anywhere in a value tree, used to exhibit the
timestamps the rewrite misses. -/
mutual
def containsTimestamp : PVal → Bool
  | .timestamp _ _ => true
  | .dict kvs => containsTimestampKVs kvs
  | .listV items => containsTimestampItems items
  | _ => false
def containsTimestampKVs : List (String × PVal) → Bool
  | [] => false
  | (_, v) :: rest => containsTimestamp v || containsTimestampKVs rest
def containsTimestampItems : List PVal → Bool
  | [] => false
  | i :: rest => containsTimestamp i || containsTimestampItems rest
end

/- The rewrite establishes `noReachableTs` on every output. -/
mutual
theorem convert_noReachableTs :
    ∀ v, noReachableTs (convert_timestamps_in_properties v) = true
  | .dict kvs => by
      simp [convert_timestamps_in_properties, noReachableTs, convertKVs_noReachableTs kvs]
  | .str s => by simp [convert_timestamps_in_properties, noReachableTs]
  | .intV n => by simp [convert_timestamps_in_properties, noReachableTs]
  | .boolV b => by simp [convert_timestamps_in_properties, noReachableTs]
  | .null => by simp [convert_timestamps_in_properties, noReachableTs]
  | .timestamp d t => by simp [convert_timestamps_in_properties, noReachableTs]
  | .listV items => by simp [convert_timestamps_in_properties, noReachableTs]
theorem convertKVs_noReachableTs :
    ∀ l, noReachableTsKVs (convertKVs l) = true
  | [] => rfl
  | (k, v) :: rest => by
      simp [convertKVs, noReachableTsKVs, convertEntry_noReachableTsVal v,
        convertKVs_noReachableTs rest]
theorem convertEntry_noReachableTsVal :
    ∀ v, noReachableTsVal (convertEntry v) = true
  | .timestamp d t => by simp [convertEntry, noReachableTsVal]
  | .dict kvs => by simp [convertEntry, noReachableTsVal, convertKVs_noReachableTs kvs]
  | .listV items => by simp [convertEntry, noReachableTsVal, convertItems_noReachableTsItems items]
  | .str s => by simp [convertEntry, noReachableTsVal]
  | .intV n => by simp [convertEntry, noReachableTsVal]
  | .boolV b => by simp [convertEntry, noReachableTsVal]
  | .null => by simp [convertEntry, noReachableTsVal]
theorem convertItems_noReachableTsItems :
    ∀ l, noReachableTsItems (convertItems l) = true
  | [] => rfl
  | i :: rest => by
      cases i <;>
        simp [convertItems, noReachableTsItems, noReachableTs,
          convertKVs_noReachableTs, convertItems_noReachableTsItems rest]
end

/- The rewrite is idempotent at value level. -/
mutual
theorem convert_idem :
    ∀ v, convert_timestamps_in_properties (convert_timestamps_in_properties v) =
      convert_timestamps_in_properties v
  | .dict kvs => by
      simp [convert_timestamps_in_properties, convertKVs_idem kvs]
  | .str s => rfl
  | .intV n => rfl
  | .boolV b => rfl
  | .null => rfl
  | .timestamp d t => rfl
  | .listV items => rfl
theorem convertKVs_idem : ∀ l, convertKVs (convertKVs l) = convertKVs l
  | [] => rfl
  | (k, v) :: rest => by
      simp [convertKVs, convertEntry_idem v, convertKVs_idem rest]
theorem convertEntry_idem : ∀ v, convertEntry (convertEntry v) = convertEntry v
  | .timestamp d t => by simp [convertEntry]
  | .dict kvs => by simp [convertEntry, convertKVs_idem kvs]
  | .listV items => by simp [convertEntry, convertItems_idem items]
  | .str s => rfl
  | .intV n => rfl
  | .boolV b => rfl
  | .null => rfl
theorem convertItems_idem : ∀ l, convertItems (convertItems l) = convertItems l
  | [] => rfl
  | i :: rest => by
      cases i <;> simp [convertItems, convertKVs_idem, convertItems_idem rest]
end

theorem isDict_convert (v : PVal) :
    isDict (convert_timestamps_in_properties v) = isDict v := by
  cases v <;> simp [convert_timestamps_in_properties, isDict]

theorem convert_null : convert_timestamps_in_properties .null = .null := rfl

/- Row access and the per-partition normalization. -/

theorem rowGet_cons (n : String) (v : PVal) (r : Row) (c : String) :
    rowGet ((n, v) :: r) c = if n = c then v else rowGet r c := by
  by_cases h : n = c
  · simp [rowGet, List.find?_cons_of_pos, h]
  · rw [rowGet, List.find?_cons_of_neg _ (by simpa using h), if_neg h]
    rfl

theorem rowGet_nil (c : String) : rowGet [] c = .null := rfl

theorem rowGet_convertRow (first r : Row) (c : String) :
    rowGet (convertRow first r) c =
      if isDict (rowGet first c) then convert_timestamps_in_properties (rowGet r c)
      else rowGet r c := by
  induction r with
  | nil =>
      rw [convertRow]
      simp only [List.map_nil, rowGet_nil]
      cases h : isDict (rowGet first c) <;> simp [convert_null]
  | cons p rest ih =>
      obtain ⟨n, v⟩ := p
      rw [convertRow] at ih ⊢
      simp only [List.map_cons]
      by_cases hnc : n = c
      · subst hnc
        cases h : isDict (rowGet first n) <;>
          simp [h, rowGet_cons]
      · cases h : isDict (rowGet first n) <;>
          cases h2 : isDict (rowGet first c) <;>
            simp [h, h2, rowGet_cons, hnc, ih, h2]

theorem convertRow_names (first r : Row) :
    (convertRow first r).map Prod.fst = r.map Prod.fst := by
  rw [convertRow]
  rw [List.map_map]
  apply List.map_congr_left
  intro p _
  by_cases h : isDict (rowGet first p.1) <;> simp [h]

theorem astypeRow_nil (r : Row) : astypeRow [] r = r := by
  rw [astypeRow]
  apply List.map_id''
  intro p
  simp

theorem convertRow_comp (g f r : Row)
    (h : ∀ c, isDict (rowGet g c) = isDict (rowGet f c)) :
    convertRow g (convertRow f r) = convertRow f r := by
  rw [convertRow, convertRow, List.map_map]
  apply List.map_congr_left
  intro p _
  by_cases hc : isDict (rowGet f p.1)
  · simp [Function.comp, hc, h p.1, convert_idem]
  · simp [Function.comp, hc, h p.1]

theorem isDict_rowGet_convertRow (f : Row) (r : Row) (c : String) :
    isDict (rowGet (convertRow f r) c) = isDict (rowGet r c) := by
  rw [rowGet_convertRow]
  by_cases h : isDict (rowGet f c)
  · rw [if_pos h, isDict_convert]
  · rw [if_neg (by simp [h])]

theorem convertRow_idem (f r : Row) :
    convertRow (convertRow f f) (convertRow f r) = convertRow f r := by
  apply convertRow_comp
  intro c
  exact isDict_rowGet_convertRow f f c

theorem normalizeSubset_ok (dtcols : List String) (rows out : List Row)
    (h : normalizeSubset dtcols rows = .ok out) :
    ∃ f rest, rows.map (astypeRow dtcols) = f :: rest ∧
      out = (f :: rest).map (convertRow f) := by
  rw [normalizeSubset] at h
  cases hm : rows.map (astypeRow dtcols) with
  | nil =>
      rw [hm] at h
      exact absurd h (by simp)
  | cons f rest =>
      rw [hm] at h
      simp only [Except.ok.injEq] at h
      exact ⟨f, rest, rfl, h.symm⟩

theorem map_astypeRow_nil (l : List Row) : l.map (astypeRow []) = l := by
  apply List.map_id''
  exact astypeRow_nil

theorem normalizeSubset_idem (dtcols : List String) (rows out : List Row)
    (h : normalizeSubset dtcols rows = .ok out) :
    normalizeSubset [] out = .ok out := by
  obtain ⟨f, rest, hm, hout⟩ := normalizeSubset_ok dtcols rows out h
  subst hout
  rw [normalizeSubset, map_astypeRow_nil, List.map_cons]
  simp only [List.map_cons, List.map_map]
  rw [Except.ok.injEq]
  congr 1
  · exact convertRow_idem f f
  · apply List.map_congr_left
    intro r _
    simp only [Function.comp_apply]
    exact convertRow_idem f r

/- The filter stage (source lines 120-123) equals a single-pass
conjunction filter. -/

theorem applyFilters_eq_filter (selected : List (String × List PVal)) (rows : List Row) :
    applyFilters selected rows =
      rows.filter (fun r => selected.all (fun p => p.2.isEmpty || pdIsin (rowGet r p.1) p.2)) := by
  induction selected generalizing rows with
  | nil => simp [applyFilters]
  | cons p sel ih =>
      obtain ⟨c, vs⟩ := p
      rw [applyFilters]
      by_cases h : vs.isEmpty
      · rw [if_pos h, ih]
        apply List.filter_congr
        intro r _
        simp [h]
      · rw [if_neg h, ih, List.filter_filter]
        apply List.filter_congr
        intro r _
        simp [h, Bool.and_comm]

/- Grouping lemmas for the export loop. -/

theorem pdEq_true_iff (a b : PVal) :
    pdEq a b = true ↔ isNull a = false ∧ isNull b = false ∧ a = b := by
  cases ha : isNull a <;> cases hb : isNull b <;> simp [pdEq, ha, hb]

theorem groups_flatten_perm :
    ∀ (keys : List PVal) (rows : List Row) (f : Row → PVal),
      (∀ r ∈ rows, f r ∈ keys) → keys.Nodup →
      (∀ r ∈ rows, isNull (f r) = false) →
      ((keys.map (fun v => rows.filter (fun r => pdEq (f r) v))).flatten).Perm rows := by
  intro keys
  induction keys with
  | nil =>
      intro rows f hmem _ _
      have hrows : rows = [] :=
        List.eq_nil_iff_forall_not_mem.mpr
          (fun r hr => absurd (hmem r hr) (List.not_mem_nil _))
      subst hrows
      simp
  | cons k ks ih =>
      intro rows f hmem hnodup hnull
      rw [List.map_cons, List.flatten_cons]
      have hknotin : k ∉ ks := (List.nodup_cons.mp hnodup).1
      have hfilters : ∀ v ∈ ks,
          rows.filter (fun r => pdEq (f r) v) =
            (rows.filter (fun r => !(pdEq (f r) k))).filter (fun r => pdEq (f r) v) := by
        intro v hv
        rw [List.filter_filter]
        apply List.filter_congr
        intro r _
        cases hpv : pdEq (f r) v
        · simp
        · obtain ⟨hnn, hvnn, heq⟩ := (pdEq_true_iff _ _).mp hpv
          have hk : pdEq (f r) k = false := by
            cases hpk : pdEq (f r) k
            · rfl
            · obtain ⟨_, _, heq2⟩ := (pdEq_true_iff _ _).mp hpk
              have hvk : v = k := by rw [← heq, heq2]
              exact absurd (hvk ▸ hv) hknotin
          simp [hk]
      have hmapeq :
          ks.map (fun v => rows.filter (fun r => pdEq (f r) v)) =
            ks.map (fun v =>
              (rows.filter (fun r => !(pdEq (f r) k))).filter (fun r => pdEq (f r) v)) :=
        List.map_congr_left hfilters
      rw [hmapeq]
      have hih :
          ((ks.map (fun v =>
              (rows.filter (fun r => !(pdEq (f r) k))).filter
                (fun r => pdEq (f r) v))).flatten).Perm
            (rows.filter (fun r => !(pdEq (f r) k))) := by
        apply ih
        · intro r hr
          have hr1 := (List.mem_filter.mp hr).1
          have hr2 := (List.mem_filter.mp hr).2
          have hin := hmem r hr1
          rcases List.mem_cons.mp hin with hk2 | hks
          · exfalso
            have : pdEq (f r) k = true :=
              (pdEq_true_iff _ _).mpr ⟨hnull r hr1, hk2 ▸ hnull r hr1, hk2⟩
            simp [this] at hr2
          · exact hks
        · exact (List.nodup_cons.mp hnodup).2
        · intro r hr
          exact hnull r (List.mem_filter.mp hr).1
      exact (List.Perm.append_left _ hih).trans (List.filter_append_perm _ rows)

theorem partitionTable_disjoint (rows : List Row) (splitCol : String) :
    List.Pairwise (fun p q => ∀ r, r ∈ p.2 → r ∉ q.2) (partitionTable rows splitCol) := by
  rw [partitionTable, List.pairwise_map]
  apply List.Pairwise.imp ?_ (nodup_uniqueList _)
  intro v w hvw r hrv hrw
  have h1 := (List.mem_filter.mp hrv).2
  have h2 := (List.mem_filter.mp hrw).2
  obtain ⟨_, _, e1⟩ := (pdEq_true_iff _ _).mp h1
  obtain ⟨_, _, e2⟩ := (pdEq_true_iff _ _).mp h2
  exact hvw (by rw [← e1, e2])

theorem partitionTable_nonempty (rows : List Row) (splitCol : String)
    (hnull : ∀ r ∈ rows, isNull (rowGet r splitCol) = false) :
    ∀ p ∈ partitionTable rows splitCol, p.2 ≠ [] := by
  rw [partitionTable]
  intro p hp
  obtain ⟨v, hv, rfl⟩ := List.mem_map.mp hp
  obtain ⟨r, hr, rfl⟩ := List.mem_map.mp ((mem_uniqueList _ _).mp hv)
  intro hempty
  simp only at hempty
  have hmem : r ∈ rows.filter
      (fun row => pdEq (rowGet row splitCol) (rowGet r splitCol)) :=
    List.mem_filter.mpr
      ⟨hr, (pdEq_true_iff _ _).mpr ⟨hnull r hr, hnull r hr, rfl⟩⟩
  rw [hempty] at hmem
  exact absurd hmem (List.not_mem_nil r)

theorem partitionTable_flatten_perm (rows : List Row) (splitCol : String)
    (hnull : ∀ r ∈ rows, isNull (rowGet r splitCol) = false) :
    ((partitionTable rows splitCol).map Prod.snd).flatten.Perm rows := by
  rw [partitionTable, List.map_map]
  apply groups_flatten_perm
  · intro r hr
    rw [mem_uniqueList]
    exact List.mem_map.mpr ⟨r, hr, rfl⟩
  · exact nodup_uniqueList _
  · exact hnull

/- Totality and transitivity of the comparison behind `sorted`. -/

set_option maxHeartbeats 1000000 in
theorem pvSameRankLe_total (a b : PVal) (h : pvRank a = pvRank b) :
    (pvSameRankLe a b || pvSameRankLe b a) = true := by
  cases a <;> cases b <;> simp_all [pvRank, pvSameRankLe]
  case boolV.boolV x y => exact le_total x y
  case intV.intV m n => exact le_total m n
  case str.str s t =>
    rcases le_total s t with h | h
    · exact Or.inl (String.le_iff_toList_le.mp h)
    · exact Or.inr (String.le_iff_toList_le.mp h)
  case timestamp.timestamp d t e u =>
    rcases lt_trichotomy d e with hlt | heq | hgt
    · exact Or.inl (Or.inl (String.lt_iff_toList_lt.mp hlt))
    · rcases le_total t u with hle | hle
      · exact Or.inl (Or.inr ⟨heq, String.le_iff_toList_le.mp hle⟩)
      · exact Or.inr (Or.inr ⟨heq.symm, String.le_iff_toList_le.mp hle⟩)
    · exact Or.inr (Or.inl (String.lt_iff_toList_lt.mp hgt))

set_option maxHeartbeats 2000000 in
theorem pvSameRankLe_trans (a b c : PVal) (hab : pvRank a = pvRank b)
    (hbc : pvRank b = pvRank c) (h1 : pvSameRankLe a b = true)
    (h2 : pvSameRankLe b c = true) : pvSameRankLe a c = true := by
  cases a <;> cases b <;> cases c <;> simp_all [pvRank, pvSameRankLe]
  case boolV.boolV.boolV x y z => exact le_trans h1 h2
  case intV.intV.intV m n o => exact le_trans h1 h2
  case str.str.str s t u => exact le_trans h1 h2
  case timestamp.timestamp.timestamp d t e u f w =>
    rcases h1 with h1 | ⟨h1e, h1le⟩ <;> rcases h2 with h2 | ⟨h2e, h2le⟩
    · exact Or.inl (lt_trans h1 h2)
    · exact Or.inl (h2e ▸ h1)
    · exact Or.inl (h1e ▸ h2)
    · exact Or.inr ⟨h1e.trans h2e, le_trans h1le h2le⟩

theorem pvLe_total (a b : PVal) : (pvLe a b || pvLe b a) = true := by
  rw [pvLe, pvLe]
  rcases Nat.lt_trichotomy (pvRank a) (pvRank b) with h | h | h
  · simp [h]
  · have h2 : ¬ pvRank a < pvRank b := by omega
    have h3 : ¬ pvRank b < pvRank a := by omega
    simp [h, h2, h3]
    simpa using pvSameRankLe_total a b h
  · simp [h]

theorem pvLe_trans (a b c : PVal) (h1 : pvLe a b = true) (h2 : pvLe b c = true) :
    pvLe a c = true := by
  rw [pvLe] at h1 h2 ⊢
  simp only [Bool.or_eq_true, Bool.and_eq_true, decide_eq_true_eq] at h1 h2 ⊢
  rcases h1 with h1 | ⟨h1e, h1s⟩ <;> rcases h2 with h2 | ⟨h2e, h2s⟩
  · exact Or.inl (lt_trans h1 h2)
  · exact Or.inl (h2e ▸ h1)
  · exact Or.inl (h1e ▸ h2)
  · exact Or.inr ⟨h1e.trans h2e, pvSameRankLe_trans a b c h1e h2e h1s h2s⟩

instance : IsTotal PVal pvLeProp :=
  ⟨fun a b => by simpa using pvLe_total a b⟩

instance : IsTrans PVal pvLeProp :=
  ⟨fun a b c => pvLe_trans a b c⟩

/- The filename cleaning chain versus the spec's characterwise
description. -/

/-- Spec section 4.4 step 4, stated characterwise (the refinement
target): slash, backslash and space each become an underscore, the two
quote characters are removed, and every other character is kept. -/
def sanitizeSpecChar (c : Char) : List Char :=
  if c = Char.ofNat 47 ∨ c = Char.ofNat 92 ∨ c = spaceChar then [Char.ofNat 95]
  else if c = quoteChar ∨ c = apostropheChar then []
  else [c]

/-- Characterwise sanitization over a whole name (spec side). -/
def sanitizeSpec : List Char → List Char
  | [] => []
  | c :: cs => sanitizeSpecChar c ++ sanitizeSpec cs

/-- The source's cleaning chain on character lists, for reasoning
about `cleanFilename`. -/
def cleanChars (l : List Char) : List Char :=
  pyReplace1 apostropheChar []
    (pyReplace1 quoteChar []
      (pyReplace1 spaceChar [Char.ofNat 95]
        (pyReplace1 (Char.ofNat 92) [Char.ofNat 95]
          (pyReplace1 (Char.ofNat 47) [Char.ofNat 95] l))))

theorem cleanFilename_eq_cleanChars (s : String) :
    cleanFilename s = (cleanChars s.toList).asString := rfl

theorem pyReplace1_append (old : Char) (new : List Char) (xs ys : List Char) :
    pyReplace1 old new (xs ++ ys) = pyReplace1 old new xs ++ pyReplace1 old new ys := by
  induction xs with
  | nil => simp [pyReplace1]
  | cons c cs ih => simp [pyReplace1, ih]

theorem cleanChars_append (xs ys : List Char) :
    cleanChars (xs ++ ys) = cleanChars xs ++ cleanChars ys := by
  simp [cleanChars, pyReplace1_append]

theorem cleanChars_char (c : Char) : cleanChars [c] = sanitizeSpecChar c := by
  by_cases h1 : c = Char.ofNat 47
  · subst h1; decide
  · by_cases h2 : c = Char.ofNat 92
    · subst h2; decide
    · by_cases h3 : c = spaceChar
      · subst h3; decide
      · by_cases h4 : c = quoteChar
        · subst h4; decide
        · by_cases h5 : c = apostropheChar
          · subst h5; decide
          · rw [sanitizeSpecChar, if_neg (by simp [h1, h2, h3]), if_neg (by simp [h4, h5])]
            simp [cleanChars, pyReplace1, h1, h2, h3, h4, h5]

theorem cleanChars_eq_sanitizeSpec : ∀ l, cleanChars l = sanitizeSpec l
  | [] => rfl
  | c :: cs => by
      have hsplit : (c :: cs) = [c] ++ cs := rfl
      rw [hsplit, cleanChars_append, cleanChars_char, cleanChars_eq_sanitizeSpec cs]
      rfl

/- The filenames an export writes, in group order. -/

theorem exportGroupsAux_names (dtcols : List String) (rows : List Row) (splitCol : String)
    (selected : List (String × List PVal)) :
    ∀ (vs : List PVal) (entries : List (String × List Row)),
      exportGroupsAux dtcols rows splitCol selected vs = .ok entries →
      entries.map Prod.fst = vs.map (fun v => deriveFilename splitCol v selected) := by
  intro vs
  induction vs with
  | nil =>
      intro entries h
      rw [exportGroupsAux] at h
      simp only [Except.ok.injEq] at h
      subst h
      simp
  | cons v vs ih =>
      intro entries h
      rw [exportGroupsAux] at h
      cases hn : normalizeSubset dtcols (rows.filter (fun r => pdEq (rowGet r splitCol) v)) with
      | error e =>
          rw [hn] at h
          exact absurd h (by simp)
      | ok ns =>
          rw [hn] at h
          cases hrest : exportGroupsAux dtcols rows splitCol selected vs with
          | error e =>
              rw [hrest] at h
              exact absurd h (by simp)
          | ok rest =>
              rw [hrest] at h
              simp only [Except.ok.injEq] at h
              subst h
              simp [ih rest hrest]

/- Geometry-column candidate search. -/

theorem find?_eq_head_of_filter (p : String → Bool) :
    ∀ (l : List String) (g : String) (gs : List String),
      l.filter p = g :: gs → l.find? p = some g := by
  intro l
  induction l with
  | nil => intro g gs h; simp at h
  | cons a as ih =>
      intro g gs h
      by_cases hp : p a
      · rw [List.filter_cons_of_pos hp] at h
        simp only [List.cons.injEq] at h
        rw [List.find?_cons_of_pos _ hp, h.1]
      · rw [List.filter_cons_of_neg hp] at h
        rw [List.find?_cons_of_neg _ hp]
        exact ih g gs h

/- Claim theorems. -/

/-- Claim C1, counterexample: the export normalization is NOT complete.
One row whose dict column holds a list containing a timestamp exports
successfully, and the serialized partition still contains that
timestamp unchanged - line 24 of the source converts only the dict
elements of a list, so a timestamp sitting directly in a list
survives. -/
theorem c1_counterexample :
    exportZip []
        [[("c", PVal.str "x"),
          ("p", PVal.dict [("a", PVal.listV [PVal.timestamp "2021-01-01" "00:00:00"])]),
          ("geometry", PVal.str "POINT (0 0)")]] "c" [] =
      .ok [("c-x.geojson",
        [[("c", PVal.str "x"),
          ("p", PVal.dict [("a", PVal.listV [PVal.timestamp "2021-01-01" "00:00:00"])]),
          ("geometry", PVal.str "POINT (0 0)")]])] ∧
    containsTimestamp
        (PVal.dict [("a", PVal.listV [PVal.timestamp "2021-01-01" "00:00:00"])]) = true := by
  exact ⟨by decide, by decide⟩

/-- Claim C1 (amended): after the normalization the export applies to a
partition, every value of a `datetime64[ns]` column is a string, and in
every column whose first (astype-processed) value is a mapping no
timestamp remains at a mapping-value position at any depth reachable
through mappings (including mappings inside lists), every such
timestamp having been rewritten to its ISO string.  Timestamps sitting
directly inside lists, or in columns the rewrite does not select, are
left unchanged (see the counterexample). -/
theorem c1_export_normalization :
    ∀ (dtcols : List String) (rows out : List Row),
      normalizeSubset dtcols rows = .ok out →
      ∀ r ∈ out, ∀ p ∈ r,
        (p.1 ∈ dtcols → isStr p.2 = true) ∧
        (∀ f rest, rows.map (astypeRow dtcols) = f :: rest →
          isDict (rowGet f p.1) = true → noReachableTs p.2 = true) := by
  intro dtcols rows out h r hr p hp
  obtain ⟨f, rest, hm, hout⟩ := normalizeSubset_ok dtcols rows out h
  subst hout
  obtain ⟨r1, hr1, rfl⟩ := List.mem_map.mp hr
  rw [convertRow] at hp
  obtain ⟨q, hq, hpq⟩ := List.mem_map.mp hp
  rw [← hm] at hr1
  obtain ⟨r0, hr0, hr10⟩ := List.mem_map.mp hr1
  rw [← hr10, astypeRow] at hq
  obtain ⟨q0, hq0, hqq⟩ := List.mem_map.mp hq
  by_cases hd : q0.1 ∈ dtcols
  · rw [if_pos hd] at hqq
    have hq1 : q.1 = q0.1 := by rw [← hqq]
    have hq2 : q.2 = PVal.str (pyStr q0.2) := by rw [← hqq]
    by_cases hc : isDict (rowGet f q.1) = true
    · rw [if_pos hc] at hpq
      subst hpq
      constructor
      · intro _
        rw [hq2]
        rfl
      · intro _ _ _ _
        rw [hq2]
        rfl
    · rw [if_neg hc] at hpq
      subst hpq
      constructor
      · intro _
        rw [hq2]
        rfl
      · intro f2 rest2 hm2 hdict
        rw [hm] at hm2
        have hf2 : f2 = f := (List.cons.injEq _ _ _ _).mp hm2 |>.1.symm
        subst hf2
        exact absurd hdict hc
  · rw [if_neg hd] at hqq
    subst hqq
    by_cases hc : isDict (rowGet f q0.1) = true
    · rw [if_pos hc] at hpq
      subst hpq
      constructor
      · intro hdt
        exact absurd hdt hd
      · intro _ _ _ _
        exact convert_noReachableTs q0.2
    · rw [if_neg hc] at hpq
      subst hpq
      constructor
      · intro hdt
        exact absurd hdt hd
      · intro f2 rest2 hm2 hdict
        rw [hm] at hm2
        have hf2 : f2 = f := (List.cons.injEq _ _ _ _).mp hm2 |>.1.symm
        subst hf2
        exact absurd hdict hc

/-- Witness for C1 (amended) at a concrete table: one row with a
datetime column `d` and a dict column `p` holding a timestamp; after
export normalization `d` holds a string and `p` a timestamp-free
dict. -/
theorem c1_export_normalization_witness :
    isStr (PVal.str "2021-01-01 00:00:00") = true ∧
    noReachableTs (PVal.dict [("t", PVal.str "2020-01-01T08:00:00")]) = true := by
  have h := c1_export_normalization ["d"]
    [[("d", PVal.timestamp "2021-01-01" "00:00:00"),
      ("p", PVal.dict [("t", PVal.timestamp "2020-01-01" "08:00:00")]),
      ("geometry", PVal.str "POINT (0 0)")]]
    [[("d", PVal.str "2021-01-01 00:00:00"),
      ("p", PVal.dict [("t", PVal.str "2020-01-01T08:00:00")]),
      ("geometry", PVal.str "POINT (0 0)")]]
    (by decide)
    [("d", PVal.str "2021-01-01 00:00:00"),
     ("p", PVal.dict [("t", PVal.str "2020-01-01T08:00:00")]),
     ("geometry", PVal.str "POINT (0 0)")]
    (by decide)
  constructor
  · exact (h ("d", PVal.str "2021-01-01 00:00:00") (by decide)).1 (by decide)
  · exact (h ("p", PVal.dict [("t", PVal.str "2020-01-01T08:00:00")]) (by decide)).2
      [("d", PVal.str "2021-01-01 00:00:00"),
       ("p", PVal.dict [("t", PVal.timestamp "2020-01-01" "08:00:00")]),
       ("geometry", PVal.str "POINT (0 0)")]
      [] (by decide) (by decide)

/-- Claim C2, counterexample: a row whose split-column value is null is
NOT captured by any partition.  `unique()` lists NaN once, but the
`== NaN` subset is empty, so the null group is an empty partition, the
union of partitions misses the row - and the export then dies on
`iloc[0]` over that empty subset instead of producing partitions. -/
theorem c2_counterexample :
    partitionTable [[("c", PVal.null), ("geometry", PVal.str "POINT (0 0)")]] "c" =
      [(PVal.null, [])] ∧
    exportZip [] [[("c", PVal.null), ("geometry", PVal.str "POINT (0 0)")]] "c" [] =
      .error .iloc0OnEmptyPartition := by
  exact ⟨by decide, by decide⟩

/-- Claim C2 (amended): the partitions grouping produces are always
pairwise disjoint; and when no row's split-column value is null, every
partition is non-empty and the union of all partitions is exactly the
filtered table's rows (same multiset).  A row with a null split value
belongs to no partition: its group is empty and the export fails on it
(see the counterexample). -/
theorem c2_partition_completeness :
    ∀ (rows : List Row) (splitCol : String),
      List.Pairwise (fun p q => ∀ r, r ∈ p.2 → r ∉ q.2) (partitionTable rows splitCol) ∧
      ((∀ r ∈ rows, isNull (rowGet r splitCol) = false) →
        (∀ p ∈ partitionTable rows splitCol, p.2 ≠ []) ∧
        ((partitionTable rows splitCol).map Prod.snd).flatten.Perm rows) := by
  intro rows splitCol
  refine ⟨partitionTable_disjoint rows splitCol, fun hnull => ⟨?_, ?_⟩⟩
  · exact partitionTable_nonempty rows splitCol hnull
  · exact partitionTable_flatten_perm rows splitCol hnull

/-- Witness for C2 (amended) on a concrete three-row table split by
`c` with values x, y, x: two non-empty partitions whose union is a
permutation of the rows. -/
theorem c2_partition_completeness_witness :
    (∀ p ∈ partitionTable
        [[("c", PVal.str "x"), ("geometry", PVal.str "P0")],
         [("c", PVal.str "y"), ("geometry", PVal.str "P1")],
         [("c", PVal.str "x"), ("geometry", PVal.str "P2")]] "c", p.2 ≠ []) ∧
    ((partitionTable
        [[("c", PVal.str "x"), ("geometry", PVal.str "P0")],
         [("c", PVal.str "y"), ("geometry", PVal.str "P1")],
         [("c", PVal.str "x"), ("geometry", PVal.str "P2")]] "c").map Prod.snd).flatten.Perm
      [[("c", PVal.str "x"), ("geometry", PVal.str "P0")],
       [("c", PVal.str "y"), ("geometry", PVal.str "P1")],
       [("c", PVal.str "x"), ("geometry", PVal.str "P2")]] :=
  (c2_partition_completeness
      [[("c", PVal.str "x"), ("geometry", PVal.str "P0")],
       [("c", PVal.str "y"), ("geometry", PVal.str "P1")],
       [("c", PVal.str "x"), ("geometry", PVal.str "P2")]] "c").2 (by decide)

/-- Claim C3, counterexample: filename sanitization collapses the two
distinct split values "A/B" and "A B" to the same member name
`c-A_B.geojson`; the export succeeds and silently writes BOTH entries
under that one name - there is no `DuplicateFilename` failure and the
archive's names are not pairwise distinct. -/
theorem c3_counterexample :
    exportZip []
        [[("c", PVal.str "A/B"), ("geometry", PVal.str "POINT (0 0)")],
         [("c", PVal.str "A B"), ("geometry", PVal.str "POINT (1 1)")]] "c" [] =
      .ok [("c-A_B.geojson", [[("c", PVal.str "A/B"), ("geometry", PVal.str "POINT (0 0)")]]),
           ("c-A_B.geojson", [[("c", PVal.str "A B"), ("geometry", PVal.str "POINT (1 1)")]])] ∧
    (["c-A_B.geojson", "c-A_B.geojson"] : List String).Nodup = False := by
  refine ⟨by decide, by simp⟩

/-- Claim C3 (amended): the export performs no duplicate-name check;
it writes one entry per distinct split value, named by
`deriveFilename`.  The archive's member names are pairwise distinct
exactly when filename derivation is injective on the distinct split
values; when sanitization collapses two values, both entries are
written under the same name (see the counterexample). -/
theorem c3_filename_uniqueness :
    ∀ (dtcols : List String) (rows : List Row) (splitCol : String)
      (selected : List (String × List PVal)) (entries : List (String × List Row)),
      exportZip dtcols rows splitCol selected = .ok entries →
      entries.map Prod.fst =
        (uniqueList (rows.map (fun r => rowGet r splitCol))).map
          (fun v => deriveFilename splitCol v selected) ∧
      ((∀ v ∈ uniqueList (rows.map (fun r => rowGet r splitCol)),
          ∀ w ∈ uniqueList (rows.map (fun r => rowGet r splitCol)),
          deriveFilename splitCol v selected = deriveFilename splitCol w selected → v = w) →
        (entries.map Prod.fst).Nodup) := by
  intro dtcols rows splitCol selected entries h
  have hnames := exportGroupsAux_names dtcols rows splitCol selected
    (uniqueList (rows.map (fun r => rowGet r splitCol))) entries h
  refine ⟨hnames, fun hinj => ?_⟩
  rw [hnames]
  exact List.Nodup.map_on hinj (nodup_uniqueList _)

/-- Witness for C3 (amended) on a concrete export whose two split
values keep distinct sanitized names. -/
theorem c3_filename_uniqueness_witness :
    ((.ok [("c-x.geojson", [[("c", PVal.str "x"), ("geometry", PVal.str "P0")]]),
           ("c-y.geojson", [[("c", PVal.str "y"), ("geometry", PVal.str "P1")]])] :
        Except ExportErr (List (String × List Row))) =
      .ok [("c-x.geojson", [[("c", PVal.str "x"), ("geometry", PVal.str "P0")]]),
           ("c-y.geojson", [[("c", PVal.str "y"), ("geometry", PVal.str "P1")]])]) ∧
    ([("c-x.geojson", [[("c", PVal.str "x"), ("geometry", PVal.str "P0")]]),
      ("c-y.geojson", [[("c", PVal.str "y"), ("geometry", PVal.str "P1")]])].map
        Prod.fst).Nodup := by
  refine ⟨rfl, ?_⟩
  exact (c3_filename_uniqueness []
    [[("c", PVal.str "x"), ("geometry", PVal.str "P0")],
     [("c", PVal.str "y"), ("geometry", PVal.str "P1")]] "c" []
    [("c-x.geojson", [[("c", PVal.str "x"), ("geometry", PVal.str "P0")]]),
     ("c-y.geojson", [[("c", PVal.str "y"), ("geometry", PVal.str "P1")]])]
    (by decide)).2 (by decide)

/-- Claim C4 is a code bug: the nested rewrite mutates shared state.
`subset.copy()` copies the frame but its object-dtype cells still
reference the same dict objects as the filtered (and canonical) frame,
and `convert_timestamps_in_properties` assigns into the referenced
dict.  Here the filtered frame's cell `props` references store address
0; running the export's nested rewrite on the copy rewrites the object
at address 0, so reading the filtered frame's own cell afterwards
yields the converted dict, not the original. -/
theorem c4_export_mutates_predecessor :
    readCell
        (exportNestedRewrite [PVal.dict [("t", PVal.timestamp "2020-01-01" "08:00:00")]]
          (copyFrame [[("props", 0)]]))
        (refGet [("props", 0)] "props") =
      PVal.dict [("t", PVal.str "2020-01-01T08:00:00")] ∧
    readCell
        (exportNestedRewrite [PVal.dict [("t", PVal.timestamp "2020-01-01" "08:00:00")]]
          (copyFrame [[("props", 0)]]))
        (refGet [("props", 0)] "props") ≠
      readCell [PVal.dict [("t", PVal.timestamp "2020-01-01" "08:00:00")]]
        (refGet [("props", 0)] "props") := by
  exact ⟨by decide, by decide⟩

/-- Claim C5: the filter stage keeps exactly the rows whose value, for
every selected column with a non-empty value list, is a member of that
list (conjunction across constrained columns, absent or empty
selections unconstrained); being a `List.filter`, the relative order
of surviving rows is preserved; and an all-empty specification returns
the table unchanged. -/
theorem c5_filter_semantics :
    ∀ (selected : List (String × List PVal)) (rows : List Row),
      applyFilters selected rows =
        rows.filter (fun r => selected.all (fun p => p.2.isEmpty || pdIsin (rowGet r p.1) p.2)) ∧
      ((∀ p ∈ selected, p.2 = []) → applyFilters selected rows = rows) := by
  intro selected rows
  refine ⟨applyFilters_eq_filter selected rows, fun hempty => ?_⟩
  rw [applyFilters_eq_filter]
  have heq : rows.filter
      (fun r => selected.all (fun p => p.2.isEmpty || pdIsin (rowGet r p.1) p.2)) =
      rows.filter (fun _ => true) := by
    apply List.filter_congr
    intro r _
    rw [List.all_eq_true]
    intro p hp
    simp [hempty p hp]
  rw [heq, List.filter_true]

/-- Witness for C5 at a concrete table: a constrained filter keeps
exactly the matching row, and an empty specification changes
nothing. -/
theorem c5_filter_semantics_witness :
    applyFilters [("s", [PVal.str "a"])]
        [[("s", PVal.str "a")], [("s", PVal.str "b")]] =
      [[("s", PVal.str "a")]] ∧
    applyFilters [("s", ([] : List PVal))]
        [[("s", PVal.str "a")], [("s", PVal.str "b")]] =
      [[("s", PVal.str "a")], [("s", PVal.str "b")]] := by
  constructor
  · rw [(c5_filter_semantics [("s", [PVal.str "a"])]
      [[("s", PVal.str "a")], [("s", PVal.str "b")]]).1]
    decide
  · exact (c5_filter_semantics [("s", ([] : List PVal))]
      [[("s", PVal.str "a")], [("s", PVal.str "b")]]).2 (by decide)

/-- Claim C7: the timestamp normalization is idempotent - at value
level for the nested rewrite, and at table level for the normalization
the export performs (a second normalization of a normalized table,
whose datetime dtype list is empty after `astype(str)`, changes
nothing). -/
theorem c7_normalization_idempotent :
    (∀ v, convert_timestamps_in_properties (convert_timestamps_in_properties v) =
        convert_timestamps_in_properties v) ∧
    (∀ T : GFrame, (normalizeTable T).bind normalizeTable = normalizeTable T) := by
  refine ⟨convert_idem, ?_⟩
  intro T
  rw [normalizeTable]
  cases hn : normalizeSubset T.datetimeCols T.rows with
  | error e => rfl
  | ok rows2 =>
      show normalizeTable ⟨[], rows2⟩ = .ok ⟨[], rows2⟩
      rw [normalizeTable, normalizeSubset_idem T.datetimeCols T.rows rows2 hn]

/-- Claim C9: during export the nested rewrite is applied to a column
exactly when that column's value in the partition's first
(astype-processed) row is a dict: in a selected column every value is
rewritten with `convert_timestamps_in_properties`, and in an
unselected column every value is left unchanged, even a later-row
mapping that contains timestamps. -/
theorem c9_first_row_dict_dispatch :
    ∀ (dtcols : List String) (rows out : List Row),
      normalizeSubset dtcols rows = .ok out →
      ∃ f rest, rows.map (astypeRow dtcols) = f :: rest ∧
        out = (f :: rest).map (convertRow f) ∧
        (∀ c r, isDict (rowGet f c) = false →
          rowGet (convertRow f r) c = rowGet r c) ∧
        (∀ c r, isDict (rowGet f c) = true →
          rowGet (convertRow f r) c = convert_timestamps_in_properties (rowGet r c)) := by
  intro dtcols rows out h
  obtain ⟨f, rest, hm, hout⟩ := normalizeSubset_ok dtcols rows out h
  refine ⟨f, rest, hm, hout, ?_, ?_⟩
  · intro c r hc
    rw [rowGet_convertRow, if_neg (by simp [hc])]
  · intro c r hc
    rw [rowGet_convertRow, if_pos hc]

/-- Witness for C9: in a two-row partition whose first `p` value is an
int, the second row's `p` value - a dict containing a timestamp - is
not rewritten. -/
theorem c9_first_row_dict_dispatch_witness :
    rowGet (convertRow
        [("c", PVal.str "x"), ("p", PVal.intV 1)]
        [("c", PVal.str "x"),
         ("p", PVal.dict [("t", PVal.timestamp "2020-01-01" "08:00:00")])]) "p" =
      rowGet [("c", PVal.str "x"),
        ("p", PVal.dict [("t", PVal.timestamp "2020-01-01" "08:00:00")])] "p" := by
  obtain ⟨f, rest, hm, hout, huntouched, happlied⟩ :=
    c9_first_row_dict_dispatch []
      [[("c", PVal.str "x"), ("p", PVal.intV 1)],
       [("c", PVal.str "x"), ("p", PVal.dict [("t", PVal.timestamp "2020-01-01" "08:00:00")])]]
      [[("c", PVal.str "x"), ("p", PVal.intV 1)],
       [("c", PVal.str "x"), ("p", PVal.dict [("t", PVal.timestamp "2020-01-01" "08:00:00")])]]
      (by decide)
  have hm2 : ([[("c", PVal.str "x"), ("p", PVal.intV 1)],
      [("c", PVal.str "x"),
       ("p", PVal.dict [("t", PVal.timestamp "2020-01-01" "08:00:00")])]] : List Row) =
      f :: rest := by
    rw [← hm]
    decide
  have hf : f = [("c", PVal.str "x"), ("p", PVal.intV 1)] :=
    ((List.cons.injEq _ _ _ _).mp hm2.symm).1
  subst hf
  exact huntouched "p"
    [("c", PVal.str "x"), ("p", PVal.dict [("t", PVal.timestamp "2020-01-01" "08:00:00")])]
    (by decide)

/-- Claim C8: for a JSON list-of-objects or CSV input with no column
name containing "geom" (case-insensitive), loading fails - the
spec's `NoGeometryColumn` condition - and no table is produced; when
candidates exist, the first in column order is selected as geometry
source.  (The JSON path reports the failure explicitly, lines 49-50;
the CSV path fails through the `IndexError` of `[...][0]` on the empty
candidate list, line 53 - the same condition, surfaced by the
top-level handler.) -/
theorem c8_no_geometry_column :
    ∀ (cols : List String) (rows : List Row),
      (cols.filter containsGeom = [] →
        loadJsonListTable cols rows = .error .noGeometryColumn ∧
        loadCsvTable cols rows = .error .noGeometryColumn) ∧
      (∀ g gs, cols.filter containsGeom = g :: gs →
        cols.find? containsGeom = some g ∧
        loadJsonListTable cols rows = .ok ⟨cols, g, rows⟩ ∧
        loadCsvTable cols rows = .ok ⟨cols, g, rows⟩) := by
  intro cols rows
  constructor
  · intro h
    rw [loadJsonListTable, loadCsvTable, h]
    exact ⟨rfl, rfl⟩
  · intro g gs h
    rw [loadJsonListTable, loadCsvTable, h]
    exact ⟨find?_eq_head_of_filter containsGeom cols g gs h, rfl, rfl⟩

/-- Witness for C8: a table with columns id, name fails both loaders;
with columns id, geom_wkt, GEOM2 the first candidate geom_wkt is
chosen. -/
theorem c8_no_geometry_column_witness :
    loadJsonListTable ["id", "name"] [] = .error .noGeometryColumn ∧
    loadCsvTable ["id", "name"] [] = .error .noGeometryColumn ∧
    loadCsvTable ["id", "geom_wkt", "GEOM2"] [] =
      .ok ⟨["id", "geom_wkt", "GEOM2"], "geom_wkt", []⟩ := by
  refine ⟨?_, ?_, ?_⟩
  · exact ((c8_no_geometry_column ["id", "name"] []).1 (by decide)).1
  · exact ((c8_no_geometry_column ["id", "name"] []).1 (by decide)).2
  · exact ((c8_no_geometry_column ["id", "geom_wkt", "GEOM2"] []).2 "geom_wkt" ["GEOM2"]
      (by decide)).2.2

/-- Claim C10: the values offered for selection on a filter column are
the sorted distinct values of that column with nulls removed; and
whenever a non-empty selection drawn from those candidates constrains
a column, every row whose value in that column is null is excluded
from the filtered table. -/
theorem c10_candidates_exclude_null :
    ∀ (rows : List Row) (col : String),
      (List.Sorted pvLeProp (candidateValues rows col) ∧
       (candidateValues rows col).Nodup ∧
       (∀ v, v ∈ candidateValues rows col ↔
          (isNull v = false ∧ v ∈ rows.map (fun r => rowGet r col)))) ∧
      (∀ (selected : List (String × List PVal)) (vals : List PVal),
        (col, vals) ∈ selected → vals ≠ [] →
        (∀ v ∈ vals, v ∈ candidateValues rows col) →
        ∀ r ∈ applyFilters selected rows, isNull (rowGet r col) = false) := by
  intro rows col
  have hperm : (candidateValues rows col).Perm
      (uniqueList ((rows.map (fun r => rowGet r col)).filter (fun v => !(isNull v)))) := by
    rw [candidateValues]
    exact List.perm_insertionSort _ _
  have hmemiff : ∀ v, v ∈ candidateValues rows col ↔
      (isNull v = false ∧ v ∈ rows.map (fun r => rowGet r col)) := by
    intro v
    rw [hperm.mem_iff, mem_uniqueList, List.mem_filter]
    simp [and_comm]
  constructor
  · refine ⟨?_, ?_, hmemiff⟩
    · rw [candidateValues]
      exact List.sorted_insertionSort pvLeProp _
    · exact hperm.nodup_iff.mpr (nodup_uniqueList _)
  · intro selected vals hsel hne hsub r hr
    rw [applyFilters_eq_filter] at hr
    have hall := (List.mem_filter.mp hr).2
    rw [List.all_eq_true] at hall
    have hv := hall (col, vals) hsel
    have hisin : pdIsin (rowGet r col) vals = true := by
      cases he : vals.isEmpty
      · simpa [he] using hv
      · exact absurd (List.isEmpty_iff.mp he) hne
    have hmem : rowGet r col ∈ vals := by
      rw [pdIsin] at hisin
      simpa using hisin
    exact ((hmemiff (rowGet r col)).mp (hsub _ hmem)).1

/-- Witness for C10: with column values a and null, the offered
candidates are exactly the string a, and filtering on them keeps the
matching row whose value is non-null. -/
theorem c10_candidates_exclude_null_witness :
    candidateValues [[("s", PVal.str "a")], [("s", PVal.null)]] "s" = [PVal.str "a"] ∧
    isNull (rowGet [("s", PVal.str "a")] "s") = false := by
  constructor
  · decide
  · exact (c10_candidates_exclude_null [[("s", PVal.str "a")], [("s", PVal.null)]] "s").2
      [("s", [PVal.str "a"])] [PVal.str "a"] (by decide) (by decide) (by decide)
      [("s", PVal.str "a")] (by decide)

/-- Claim C6: the source's ordered replacement chain - slash,
backslash, space each to underscore, then double quote and single
quote removed - equals the characterwise sanitization the spec
describes, so no other character of the name is altered. -/
theorem c6_sanitization_charwise :
    ∀ s : String, cleanFilename s = (sanitizeSpec s.toList).asString := by
  intro s
  rw [cleanFilename_eq_cleanChars, cleanChars_eq_sanitizeSpec]
